import Mathlib

/-!
Verification of `gpytorch/utils/nearest_neighbors.py` (class `NNUtil`).

The embedding below renders the Python class as a pure state-passing model:

* tensors are a `shape` (list of dimension sizes) plus flat row-major `data`
  (integer coordinates; the claims under study are about index bookkeeping,
  shapes and exact L2 comparisons, all of which are arithmetic-exact here);
* the faiss `IndexFlatL2` collaborator (an external library, used through the
  capability interface `reset` / `add` / `search` only) is modelled as the list
  of points added so far, with `search` returning, for a query row, the ids of
  the `k` stored points of smallest squared L2 distance (ties broken towards
  the smaller id, one deterministic order as the interface promises) and
  padding with `-1` ids when fewer than `k` points are stored, as faiss does;
* every method returns an `Except` result paired with the post-call state, so
  a Python statement sequence that raises mid-way still records the mutations
  executed before the raise;
* each Python `assert`/exception site is mapped to one member of the error
  taxonomy `Err` (AssertionError sites keep the kind the message describes).
-/

/-- Error taxonomy.  The first five kinds name the design-level taxonomy; the
last three record the concrete Python exception classes that the broken
scikit-learn code paths of the source raise (`TypeError` from calling the
module bound by `import sklearn.neighbors as NearestNeighbors`,
`AttributeError` from reading the never-assigned `self.neighbors` /
`self.train_neighbors`, and `NameError`/`UnboundLocalError` from
`return nn_idx` with `nn_idx` unbound in the sklearn branch of
`build_sequential_nn_idx`). -/
inductive Err where
  | configurationError
  | shapeError
  | stateError
  | rangeError
  | unsupportedOperationError
  | typeError
  | attributeError
  | nameError
  deriving DecidableEq

/-- Nearest-neighbor backend, selected at construction (source lines 42-57). -/
inductive Backend where
  | faiss
  | sklearn
  deriving DecidableEq

/-- A dense tensor: dimension sizes plus flat row-major integer data. -/
structure Tensor where
  shape : List Nat
  data : List Int
  deriving DecidableEq

deriving instance DecidableEq for Except

/-- Squared L2 distance between two coordinate rows (the ordering faiss's
`IndexFlatL2` searches by; squaring preserves the L2 nearest-neighbor order). -/
def sqdist (p q : List Int) : Int :=
  ((p.zip q).map (fun c => (c.1 - c.2) ^ 2)).sum

/-- Model of the faiss `IndexFlatL2` collaborator: the stored database is the
list of points added so far, in insertion order (ids are list positions). -/
structure IndexFlatL2 where
  d : Nat
  xb : List (List Int)
  deriving DecidableEq

/-- A freshly constructed flat index holds no points. -/
def IndexFlatL2.empty (d : Nat) : IndexFlatL2 := ⟨d, []⟩

/-- `index.reset()` drops all stored points. -/
def IndexFlatL2.reset (ix : IndexFlatL2) : IndexFlatL2 := { ix with xb := [] }

/-- `index.add(pts)` appends points to the database (ids continue upward). -/
def IndexFlatL2.add (ix : IndexFlatL2) (pts : List (List Int)) : IndexFlatL2 :=
  { ix with xb := ix.xb ++ pts }

/-- Pair every stored point with its id, starting from `n`. -/
def enumPts : Nat → List (List Int) → List (Nat × List Int)
  | _, [] => []
  | n, p :: ps => (n, p) :: enumPts (n + 1) ps

/-- Ranking used by the flat-index search: smaller squared distance to the
query first, ties broken towards the smaller id. -/
abbrev rank (q : List Int) (a b : Nat × List Int) : Prop :=
  sqdist a.2 q < sqdist b.2 q ∨ (sqdist a.2 q = sqdist b.2 q ∧ a.1 ≤ b.1)

instance rankDecidable (q : List Int) : DecidableRel (rank q) :=
  fun _ _ => inferInstanceAs (Decidable (_ ∨ _))

instance rankTotal (q : List Int) : IsTotal (Nat × List Int) (rank q) :=
  ⟨fun a b => by unfold rank; omega⟩

instance rankTrans (q : List Int) : IsTrans (Nat × List Int) (rank q) :=
  ⟨fun a b c hab hbc => by unfold rank at hab hbc ⊢; omega⟩

/-- `index.search(row, k)[1][0]`: ids of the `k` stored points nearest to the
query row `q`, nearest first; when fewer than `k` points are stored the result
is padded with `-1`, as faiss does. -/
def IndexFlatL2.searchRow (ix : IndexFlatL2) (q : List Int) (kk : Nat) : List Int :=
  let res := ((List.insertionSort (rank q) (enumPts 0 ix.xb)).take kk).map
    (fun p => (p.1 : Int))
  res ++ List.replicate (kk - res.length) (-1)

/-- State of an `NNUtil` instance (source lines 31-59).  `index` is the list of
per-batch-slot search structures (faiss backend); the sklearn attributes
`neighbors` / `train_neighbors` are absent because no statement of the source
ever succeeds in assigning them (line 129 raises before binding). -/
structure NNUtil where
  k : Nat
  dim : Nat
  batch_shape : List Nat
  nnlib : Backend
  train_n : Option Nat
  index : List IndexFlatL2
  deriving DecidableEq

/-- `NNUtil.cpu` (source lines 69-75): for the faiss backend, recreate one
empty `IndexFlatL2(dim)` per batch slot (`batch_shape.numel()` of them);
`train_n` is left untouched.  The sklearn branch changes nothing. -/
def NNUtil.cpu (u : NNUtil) : NNUtil :=
  if u.nnlib = .faiss then
    { u with index := List.replicate u.batch_shape.prod (IndexFlatL2.empty u.dim) }
  else u

/-- `NNUtil.__init__` (source lines 31-59): `assert k > 0`, store the
configuration, leave `train_n` unset, and initialize the per-slot indices via
`self.cpu()` / `self.to('cpu')`.  The backend is taken as resolved (faiss
available when preferred, sklearn otherwise). -/
def NNUtil.new (k dim : Nat) (batch_shape : List Nat) (nnlib : Backend) :
    Except Err NNUtil :=
  if k = 0 then .error .configurationError
  else .ok (NNUtil.cpu
    { k := k, dim := dim, batch_shape := batch_shape, nnlib := nnlib,
      train_n := none, index := [] })

/-- Second-to-last dimension size, `x.shape[-2]` (a tensor of rank at least 2
always has one; ranks below 2 never reach the uses of this accessor). -/
def Tensor.n2 (x : Tensor) : Nat := x.shape.getD (x.shape.length - 2) 0

/-- Rank-1 promotion (source lines 190-191): a rank-1 tensor gets a trailing
dimension of size 1 appended (`x.unsqueeze(-1)`); other ranks pass through. -/
def promote1 (x : Tensor) : Tensor :=
  if x.shape.length = 1 then { shape := x.shape ++ [1], data := x.data } else x

/-- `NNUtil._expand_and_check_shape` (source lines 189-196): after rank-1
promotion, the leading dims must equal `batch_shape` and the last dim must
equal `dim`, otherwise an assertion (ShapeError) fires. -/
def NNUtil.expandCheck (u : NNUtil) (x : Tensor) : Except Err Tensor :=
  if (promote1 x).shape.take ((promote1 x).shape.length - 2) = u.batch_shape ∧
      (promote1 x).shape.getD ((promote1 x).shape.length - 1) 0 = u.dim
  then .ok (promote1 x) else .error .shapeError

/-- Reading `x.view(-1, N, d)[b]` from the flat row-major data: the `N` rows of
batch slot `b`, row `n` being `data[(b*N+n)*d : (b*N+n)*d + d]`. -/
def slotPts (d N : Nat) (data : List Int) (b : Nat) : List (List Int) :=
  (List.range N).map (fun n => (data.drop ((b * N + n) * d)).take d)

/-- The per-slot loop of `set_nn_idx` (source lines 131-134): each slot's index
is `reset` and then fed that slot's rows of `train_x.view(-1, N, dim)`. -/
def trainedIndex (u : NNUtil) (N : Nat) (data : List Int) : List IndexFlatL2 :=
  (List.range u.batch_shape.prod).map
    (fun b => ((u.index.getD b (IndexFlatL2.empty u.dim)).reset).add
      (slotPts u.dim N data b))

/-- `NNUtil.set_nn_idx` (source lines 114-134): validate the shape, set
`train_n` to the second-to-last dim, then populate the backend.  The sklearn
branch raises `TypeError` at line 129 (`NearestNeighbors` is bound to the
*module* `sklearn.neighbors` by line 126, and a module is not callable) —
after `train_n` was already mutated.  The faiss branch resets each slot's
index and adds that slot's rows of `train_x.view(-1, train_n, dim)`. -/
def NNUtil.setNNIdx (u : NNUtil) (train_x : Tensor) : Except Err Unit × NNUtil :=
  match u.expandCheck train_x with
  | .error e => (.error e, u)
  | .ok x =>
    let u1 : NNUtil := { u with train_n := some x.n2 }
    match u1.nnlib with
    | .sklearn => (.error .typeError, u1)
    | .faiss => (.ok (), { u1 with index := trainedIndex u1 x.n2 x.data })

/-- Resolution of the optional query `k` (source lines 87-90): `None` defaults
to the configured `k`; a supplied value must be positive (`assert k > 0`). -/
def resolveQueryK (defaultK : Nat) (kq : Option Int) : Except Err Nat :=
  match kq with
  | none => .ok defaultK
  | some ki => if ki ≤ 0 then .error .rangeError else .ok ki.toNat

/-- The per-slot search loop of `find_nn_idx` (source lines 104-111): slot `b`
of `test_x.view(-1, T, dim)` is searched against slot `b`'s index, one id row
of length `kk` per query row. -/
def queryRows (u : NNUtil) (kk T : Nat) (data : List Int) : List (List (List Int)) :=
  (List.range u.batch_shape.prod).map (fun b =>
    (slotPts u.dim T data b).map (fun qr =>
      (u.index.getD b (IndexFlatL2.empty u.dim)).searchRow qr kk))

/-- `NNUtil.find_nn_idx` (source lines 77-112), in source order:
`assert self.train_n is not None` (StateError); resolve `k` and
`assert k <= self.train_n` (RangeError); `_expand_and_check_shape`; then the
backend search.  The sklearn branch raises `AttributeError` at line 99: no
statement of the source ever assigns `self.neighbors` (or `self.train_neighbors`
at line 101), so the attribute read fails.  The faiss branch searches each
slot's index with that slot's rows of `test_x.view(-1, test_n, dim)` and stacks
the id rows into shape `(*batch_shape, test_n, k)`.  No field is mutated. -/
def NNUtil.findNNIdx (u : NNUtil) (test_x : Tensor) (kq : Option Int) :
    Except Err Tensor × NNUtil :=
  match u.train_n with
  | none => (.error .stateError, u)
  | some n =>
    match resolveQueryK u.k kq with
    | .error e => (.error e, u)
    | .ok kk =>
      if n < kk then (.error .rangeError, u)
      else
        match u.expandCheck test_x with
        | .error e => (.error e, u)
        | .ok x =>
          match u.nnlib with
          | .sklearn => (.error .attributeError, u)
          | .faiss =>
            (.ok { shape := u.batch_shape ++ [x.n2, kk],
                   data := (queryRows u kk x.n2 x.data).flatten.flatten }, u)

/-- Inner loop of `build_sequential_nn_idx` (source lines 165-170): for each
remaining query row, search the growing index for the `k` nearest stored
points, record the id row, then add the query row to the index. -/
def seqSearchAdd (kk : Nat) (ix : IndexFlatL2) (qs : List (List Int)) :
    List (List Int) :=
  match qs with
  | [] => []
  | q :: rest => ix.searchRow q kk :: seqSearchAdd kk (ix.add [q]) rest

/-- The per-slot incremental loop of `build_sequential_nn_idx` (source lines
162-170): a fresh flat index is seeded with the slot's first `k` rows
(`index.add(x_np[bi][:k])`) and then each later row is searched for its `k`
nearest stored points before being added itself. -/
def seqRows (u : NNUtil) (N : Nat) (data : List Int) : List (List (List Int)) :=
  (List.range u.batch_shape.prod).map (fun b =>
    seqSearchAdd u.k
      ((IndexFlatL2.empty u.dim).add ((slotPts u.dim N data b).take u.k))
      ((slotPts u.dim N data b).drop u.k))

/-- `NNUtil.build_sequential_nn_idx` (source lines 136-176):
`_expand_and_check_shape`; `assert self.k < N` (RangeError); then, for the
faiss backend, per batch slot: a fresh local `IndexFlatL2(dim)` is seeded with
the slot's first `k` rows and the insert-then-query loop produces rows
`i-k = 0 .. N-k-1`, stacked into shape `(*batch_shape, N-k, k)`.  The sklearn
branch is `pass` followed by `return nn_idx` with `nn_idx` unbound, i.e. a
Python `UnboundLocalError` (a `NameError`).  `self` is not mutated. -/
def NNUtil.buildSequentialNNIdx (u : NNUtil) (x0 : Tensor) :
    Except Err Tensor × NNUtil :=
  match u.expandCheck x0 with
  | .error e => (.error e, u)
  | .ok x =>
    if x.n2 ≤ u.k then (.error .rangeError, u)
    else
      match u.nnlib with
      | .faiss =>
        (.ok { shape := u.batch_shape ++ [x.n2 - u.k, u.k],
               data := (seqRows u x.n2 x.data).flatten.flatten }, u)
      | .sklearn => (.error .nameError, u)

/-- Row `j` of a tensor whose last dimension is `w`, read from the flat data. -/
def tRow (w : Nat) (t : Tensor) (j : Nat) : List Int :=
  (t.data.drop (j * w)).take w

/-! Concrete `NNUtil` states used by the per-claim witness and
counterexample theorems below. -/

/-- The state produced by a successful faiss-backend construction. -/
def freshFaiss (k dim : Nat) (batch : List Nat) : NNUtil :=
  { k := k, dim := dim, batch_shape := batch, nnlib := .faiss, train_n := none,
    index := List.replicate batch.prod (IndexFlatL2.empty dim) }

/-- The state after `set_nn_idx` on a freshly constructed faiss utility. -/
def trainedFaiss (k dim : Nat) (batch : List Nat) (N : Nat) (data : List Int) : NNUtil :=
  { k := k, dim := dim, batch_shape := batch, nnlib := .faiss, train_n := some N,
    index := trainedIndex (freshFaiss k dim batch) N data }

def c4state : NNUtil :=
  { k := 2, dim := 1, batch_shape := [], nnlib := .faiss, train_n := none,
    index := [IndexFlatL2.empty 1] }

def c7small : NNUtil :=
  { k := 2, dim := 1, batch_shape := [], nnlib := .faiss, train_n := none,
    index := [IndexFlatL2.empty 1] }

def c7big : NNUtil :=
  { k := 1, dim := 1, batch_shape := [], nnlib := .faiss, train_n := none,
    index := [IndexFlatL2.empty 1] }

def c9fresh : NNUtil :=
  { k := 1, dim := 2, batch_shape := [], nnlib := .faiss, train_n := none,
    index := [IndexFlatL2.empty 2] }

def c9trained : NNUtil :=
  { k := 1, dim := 2, batch_shape := [], nnlib := .faiss, train_n := some 2,
    index := [⟨2, [[0, 0], [10, 10]]⟩] }

def c5sk : NNUtil :=
  { k := 1, dim := 2, batch_shape := [], nnlib := .sklearn, train_n := none,
    index := [] }

def c5skPost : NNUtil :=
  { k := 1, dim := 2, batch_shape := [], nnlib := .sklearn, train_n := some 2,
    index := [] }

def c6sk : NNUtil :=
  { k := 1, dim := 1, batch_shape := [], nnlib := .sklearn, train_n := none,
    index := [] }

def c3fresh : NNUtil :=
  { k := 1, dim := 2, batch_shape := [], nnlib := .faiss, train_n := none,
    index := [IndexFlatL2.empty 2] }

def c3trained : NNUtil :=
  { k := 1, dim := 2, batch_shape := [], nnlib := .faiss, train_n := some 2,
    index := [⟨2, [[0, 0], [10, 10]]⟩] }

def c8flat : NNUtil :=
  { k := 1, dim := 1, batch_shape := [], nnlib := .faiss, train_n := none,
    index := [IndexFlatL2.empty 1] }

def c8planar : NNUtil :=
  { k := 1, dim := 2, batch_shape := [], nnlib := .faiss, train_n := none,
    index := [IndexFlatL2.empty 2] }

def c2fresh : NNUtil :=
  { k := 1, dim := 2, batch_shape := [], nnlib := .faiss, train_n := none,
    index := [IndexFlatL2.empty 2] }

/-! Helper lemmas about `enumPts`. -/

theorem enumPts_length (n : Nat) (l : List (List Int)) :
    (enumPts n l).length = l.length := by
  induction l generalizing n with
  | nil => rfl
  | cons p ps ih => simp [enumPts, ih]

theorem mem_enumPts {n : Nat} {l : List (List Int)} {p : Nat × List Int}
    (h : p ∈ enumPts n l) :
    n ≤ p.1 ∧ p.1 < n + l.length ∧ p.2 = l.getD (p.1 - n) [] := by
  induction l generalizing n with
  | nil => simp [enumPts] at h
  | cons a ps ih =>
    simp only [enumPts, List.mem_cons] at h
    rcases h with h | h
    · subst h
      simp [List.getD]
    · obtain ⟨h1, h2, h3⟩ := ih h
      refine ⟨by omega, by simp; omega, ?_⟩
      have hd : p.1 - n = (p.1 - (n + 1)) + 1 := by omega
      rw [hd]
      simpa [List.getD] using h3

theorem enumPts_mem {l : List (List Int)} (n j : Nat) (hj : j < l.length) :
    (n + j, l.getD j []) ∈ enumPts n l := by
  induction l generalizing n j with
  | nil => simp at hj
  | cons a ps ih =>
    cases j with
    | zero => simp [enumPts, List.getD]
    | succ j =>
      have := ih (n + 1) j (by simpa using hj)
      simp only [enumPts, List.mem_cons]
      right
      have he : n + (j + 1) = (n + 1) + j := by omega
      rw [he]
      simpa [List.getD] using this

theorem pairwise_fst_lt_enumPts (n : Nat) (l : List (List Int)) :
    List.Pairwise (fun a b : Nat × List Int => a.1 < b.1) (enumPts n l) := by
  induction l generalizing n with
  | nil => exact List.Pairwise.nil
  | cons a ps ih =>
    refine List.Pairwise.cons (fun p hp => ?_) (ih (n + 1))
    have := (mem_enumPts hp).1
    simpa using Nat.lt_of_lt_of_le (Nat.lt_succ_self n) this

/-! Helper lemmas about lists. -/

theorem getD_map_range {α : Type} (f : Nat → α) (dfl : α) :
    ∀ (M b : Nat), b < M → ((List.range M).map f).getD b dfl = f b := by
  intro M
  induction M with
  | zero => intro b hb; omega
  | succ M ih =>
    intro b hb
    rw [List.range_succ, List.map_append]
    rcases Nat.lt_or_ge b M with h | h
    · rw [List.getD_append _ _ _ _ (by simpa using h)]
      exact ih b h
    · have hbM : b = M := by omega
      subst hbM
      rw [List.getD_append_right _ _ _ _ (by simp)]
      simp

theorem getD_take {α : Type} (l : List α) (d : α) :
    ∀ (i j : Nat), j < i → (l.take i).getD j d = l.getD j d := by
  intro i j hj
  rcases Nat.lt_or_ge j l.length with h | h
  · rw [List.getD_eq_getElem _ _ (by simp; omega), List.getD_eq_getElem _ _ h]
    simp
  · rw [List.getD_eq_default _ _ (by simp; omega), List.getD_eq_default _ _ h]

theorem take_succ_getD {α : Type} (l : List α) (d : α) (i : Nat)
    (hi : i < l.length) : l.take (i + 1) = l.take i ++ [l.getD i d] := by
  rw [List.take_succ, List.getD_eq_getElem _ _ hi]
  simp [List.getElem?_eq_getElem hi]

theorem length_flatten_uniform {α : Type} (L : Nat) :
    ∀ (ls : List (List α)), (∀ l ∈ ls, l.length = L) →
      ls.flatten.length = ls.length * L := by
  intro ls
  induction ls with
  | nil => simp
  | cons a tl ih =>
    intro h
    have ha := h a (List.mem_cons_self a tl)
    have := ih (fun l hl => h l (List.mem_cons_of_mem a hl))
    simp [List.flatten, this, ha]
    ring

theorem slice_flatten {α : Type} (w : Nat) :
    ∀ (ls : List (List α)) (j : Nat), (∀ l ∈ ls, l.length = w) →
      j < ls.length → ((ls.flatten).drop (j * w)).take w = ls.getD j [] := by
  intro ls
  induction ls with
  | nil => intro j _ hj; simp at hj
  | cons a tl ih =>
    intro j h hj
    have ha := h a (List.mem_cons_self a tl)
    cases j with
    | zero =>
      simp only [Nat.zero_mul, List.drop_zero, List.flatten_cons, List.getD]
      rw [← ha, List.take_left]
      simp [List.getD]
    | succ j =>
      have hstep : (j + 1) * w = a.length + j * w := by rw [ha]; ring
      rw [List.flatten_cons, hstep, ← List.drop_drop, List.drop_left]
      have := ih j (fun l hl => h l (List.mem_cons_of_mem a hl)) (by simpa using hj)
      simpa [List.getD] using this

theorem getD_flatten_uniform {α : Type} (R : Nat) (dfl : α) :
    ∀ (ls : List (List α)) (b t : Nat), (∀ l ∈ ls, l.length = R) →
      b < ls.length → t < R → ls.flatten.getD (b * R + t) dfl = (ls.getD b []).getD t dfl := by
  intro ls
  induction ls with
  | nil => intro b t _ hb; simp at hb
  | cons a tl ih =>
    intro b t h hb ht
    have ha := h a (List.mem_cons_self a tl)
    cases b with
    | zero =>
      simp only [Nat.zero_mul, Nat.zero_add, List.flatten_cons, List.getD_cons_zero]
      rw [List.getD_append _ _ _ _ (by omega)]
    | succ b =>
      have hstep : (b + 1) * R + t = a.length + (b * R + t) := by rw [ha]; ring
      rw [List.flatten_cons, hstep, List.getD_append_right _ _ _ _ (by omega)]
      have := ih b t (fun l hl => h l (List.mem_cons_of_mem a hl)) (by simpa using hb) ht
      simpa [List.getD_cons_succ] using this

theorem getD_replicate {α : Type} (a d : α) :
    ∀ (M b : Nat), b < M → (List.replicate M a).getD b d = a := by
  intro M
  induction M with
  | zero => intro b hb; omega
  | succ M ih =>
    intro b hb
    cases b with
    | zero => simp [List.replicate, List.getD]
    | succ b => simpa [List.replicate, List.getD] using ih b (by omega)

/-! Helper lemmas about `IndexFlatL2.searchRow`. -/

theorem searchRow_length (ix : IndexFlatL2) (q : List Int) (kk : Nat) :
    (ix.searchRow q kk).length = kk := by
  unfold IndexFlatL2.searchRow
  simp only [List.length_append, List.length_replicate, List.length_map,
    List.length_take, List.length_insertionSort, enumPts_length]
  omega

theorem searchRow_no_pad (ix : IndexFlatL2) (q : List Int) (kk : Nat)
    (hkk : kk ≤ ix.xb.length) :
    ix.searchRow q kk =
      ((List.insertionSort (rank q) (enumPts 0 ix.xb)).take kk).map
        (fun p => (p.1 : Int)) := by
  unfold IndexFlatL2.searchRow
  have hlen : (((List.insertionSort (rank q) (enumPts 0 ix.xb)).take kk).map
      (fun p : Nat × List Int => (p.1 : Int))).length = kk := by
    simp only [List.length_map, List.length_take, List.length_insertionSort,
      enumPts_length]
    omega
  simp only [hlen, Nat.sub_self, List.replicate_zero, List.append_nil]

theorem searchRow_mem_bounds {ix : IndexFlatL2} {q : List Int} {kk : Nat}
    (hkk : kk ≤ ix.xb.length) {v : Int} (hv : v ∈ ix.searchRow q kk) :
    0 ≤ v ∧ v < (ix.xb.length : Int) := by
  rw [searchRow_no_pad ix q kk hkk] at hv
  obtain ⟨p, hp, rfl⟩ := List.mem_map.1 hv
  have hp1 : p ∈ List.insertionSort (rank q) (enumPts 0 ix.xb) :=
    List.mem_of_mem_take hp
  have hp2 : p ∈ enumPts 0 ix.xb := (List.mem_insertionSort (rank q)).1 hp1
  have := (mem_enumPts hp2).2.1
  omega

theorem searchRow_mem_pt {ix : IndexFlatL2} {q : List Int} {kk : Nat}
    (hkk : kk ≤ ix.xb.length) {v : Int} (hv : v ∈ ix.searchRow q kk) :
    ∃ p : Nat × List Int,
      p ∈ (List.insertionSort (rank q) (enumPts 0 ix.xb)).take kk ∧
      v = (p.1 : Int) ∧ p.2 = ix.xb.getD p.1 [] := by
  rw [searchRow_no_pad ix q kk hkk] at hv
  obtain ⟨p, hp, rfl⟩ := List.mem_map.1 hv
  have hp2 : p ∈ enumPts 0 ix.xb :=
    (List.mem_insertionSort (rank q)).1 (List.mem_of_mem_take hp)
  exact ⟨p, hp, rfl, by simpa using (mem_enumPts hp2).2.2⟩

theorem searchRow_nearest {ix : IndexFlatL2} {q : List Int} {kk : Nat}
    (hkk : kk ≤ ix.xb.length) {v : Int} (hv : v ∈ ix.searchRow q kk)
    {j : Nat} (hj : j < ix.xb.length) (hnj : (j : Int) ∉ ix.searchRow q kk) :
    sqdist (ix.xb.getD v.toNat []) q ≤ sqdist (ix.xb.getD j []) q := by
  obtain ⟨p, hpT, hpv, hpt⟩ := searchRow_mem_pt hkk hv
  have hsort : List.Sorted (rank q) (List.insertionSort (rank q) (enumPts 0 ix.xb)) :=
    List.sorted_insertionSort (rank q) (enumPts 0 ix.xb)
  have hjmem : ((j, ix.xb.getD j []) : Nat × List Int) ∈ enumPts 0 ix.xb := by
    simpa using enumPts_mem 0 j hj
  have hjs : ((j, ix.xb.getD j []) : Nat × List Int) ∈
      List.insertionSort (rank q) (enumPts 0 ix.xb) :=
    (List.mem_insertionSort (rank q)).2 hjmem
  have hjT : ((j, ix.xb.getD j []) : Nat × List Int) ∉
      (List.insertionSort (rank q) (enumPts 0 ix.xb)).take kk := by
    intro hc
    exact hnj (by
      rw [searchRow_no_pad ix q kk hkk]
      exact List.mem_map_of_mem _ hc)
  have hjD : ((j, ix.xb.getD j []) : Nat × List Int) ∈
      (List.insertionSort (rank q) (enumPts 0 ix.xb)).drop kk := by
    have h0 := hjs
    rw [← List.take_append_drop kk (List.insertionSort (rank q) (enumPts 0 ix.xb))] at h0
    rcases List.mem_append.1 h0 with h | h
    · exact absurd h hjT
    · exact h
  have hr : rank q p (j, ix.xb.getD j []) :=
    hsort.rel_of_mem_take_of_mem_drop hpT hjD
  have hvt : v.toNat = p.1 := by rw [hpv]; simp
  rw [hvt, ← hpt]
  rcases hr with h | ⟨h, _⟩
  · exact le_of_lt h
  · exact le_of_eq h

theorem searchRow_nodup {ix : IndexFlatL2} {q : List Int} {kk : Nat}
    (hkk : kk ≤ ix.xb.length) : (ix.searchRow q kk).Nodup := by
  rw [searchRow_no_pad ix q kk hkk]
  have h1 : List.Pairwise (fun a b : Nat × List Int => a.1 ≠ b.1) (enumPts 0 ix.xb) :=
    (pairwise_fst_lt_enumPts 0 ix.xb).imp (fun h => Nat.ne_of_lt h)
  have h2 : List.Pairwise (fun a b : Nat × List Int => a.1 ≠ b.1)
      (List.insertionSort (rank q) (enumPts 0 ix.xb)) :=
    ((List.perm_insertionSort (rank q) (enumPts 0 ix.xb)).pairwise_iff
      (fun hxy => Ne.symm hxy)).2 h1
  have h3 : List.Pairwise (fun a b : Nat × List Int => a.1 ≠ b.1)
      ((List.insertionSort (rank q) (enumPts 0 ix.xb)).take kk) :=
    h2.sublist (List.take_sublist kk _)
  exact h3.map _ (fun a b h hc => h (by exact_mod_cast hc))

theorem searchRow_empty_mem {d : Nat} {q : List Int} {kk : Nat} {v : Int}
    (hv : v ∈ (IndexFlatL2.mk d []).searchRow q kk) : v = -1 := by
  unfold IndexFlatL2.searchRow at hv
  simp only [enumPts, List.insertionSort, List.take_nil, List.map_nil,
    List.nil_append, List.length_nil, Nat.sub_zero] at hv
  exact (List.eq_of_mem_replicate hv)

/-! Helper lemmas about shapes of the form `batch ++ [n, d]`. -/

theorem shape_take (batch : List Nat) (a b : Nat) :
    (batch ++ [a, b]).take ((batch ++ [a, b]).length - 2) = batch := by
  have h : (batch ++ [a, b]).length - 2 = batch.length := by simp
  rw [h]
  exact List.take_left batch [a, b]

theorem shape_lastD (batch : List Nat) (a b : Nat) :
    (batch ++ [a, b]).getD ((batch ++ [a, b]).length - 1) 0 = b := by
  have h : (batch ++ [a, b]).length - 1 = batch.length + 1 := by simp
  rw [h, List.getD_append_right _ _ _ _ (by omega)]
  simp [List.getD]

theorem shape_sndlastD (batch : List Nat) (a b : Nat) :
    (batch ++ [a, b]).getD ((batch ++ [a, b]).length - 2) 0 = a := by
  have h : (batch ++ [a, b]).length - 2 = batch.length := by simp
  rw [h, List.getD_append_right _ _ _ _ (by omega)]
  simp [List.getD]

theorem expandCheck_ok {u : NNUtil} {x : Tensor} {a : Nat}
    (hx : x.shape = u.batch_shape ++ [a, u.dim]) : u.expandCheck x = .ok x := by
  have hp : promote1 x = x := by
    unfold promote1
    rw [if_neg (by rw [hx]; simp)]
  unfold NNUtil.expandCheck
  rw [hp, if_pos]
  rw [hx]
  exact ⟨shape_take _ _ _, shape_lastD _ _ _⟩

theorem expandCheck_error {u : NNUtil} {x : Tensor} {e : Err}
    (h : u.expandCheck x = .error e) : e = .shapeError := by
  unfold NNUtil.expandCheck at h
  split at h
  · simp at h
  · simpa using h.symm

/-! Helper lemmas about `slotPts` and `seqSearchAdd`. -/

theorem slotPts_length (d N : Nat) (data : List Int) (b : Nat) :
    (slotPts d N data b).length = N := by
  simp [slotPts]

theorem slotPts_getD (d N : Nat) (data : List Int) (b n : Nat) (hn : n < N) :
    (slotPts d N data b).getD n [] = (data.drop ((b * N + n) * d)).take d := by
  unfold slotPts
  exact getD_map_range _ _ N n hn

theorem seqSearchAdd_length (kk : Nat) :
    ∀ (qs : List (List Int)) (ix : IndexFlatL2),
      (seqSearchAdd kk ix qs).length = qs.length := by
  intro qs
  induction qs with
  | nil => intro ix; rfl
  | cons q rest ih => intro ix; simp [seqSearchAdd, ih]

theorem seqSearchAdd_getD (kk d : Nat) (pts : List (List Int)) :
    ∀ (t i : Nat), t < pts.length - i →
      (seqSearchAdd kk ⟨d, pts.take i⟩ (pts.drop i)).getD t [] =
        IndexFlatL2.searchRow ⟨d, pts.take (i + t)⟩ (pts.getD (i + t) []) kk := by
  intro t
  induction t with
  | zero =>
    intro i hi
    have hilen : i < pts.length := by omega
    rw [List.drop_eq_getElem_cons hilen]
    simp only [seqSearchAdd, List.getD_cons_zero, Nat.add_zero]
    rw [List.getD_eq_getElem _ _ hilen]
  | succ t ih =>
    intro i hi
    have hilen : i < pts.length := by omega
    rw [List.drop_eq_getElem_cons hilen]
    simp only [seqSearchAdd, List.getD_cons_succ]
    have hadd : IndexFlatL2.add ⟨d, pts.take i⟩ [pts[i]] = ⟨d, pts.take (i + 1)⟩ := by
      simp only [IndexFlatL2.add]
      rw [take_succ_getD pts [] i hilen, List.getD_eq_getElem _ _ hilen]
    have hdrop : pts.drop (i + 1) = pts.drop (i + 1) := rfl
    rw [hadd]
    have := ih (i + 1) (by omega)
    have harith : i + 1 + t = i + (t + 1) := by omega
    rw [harith] at this
    exact this

/-! Evaluation lemmas for the three operations on well-shaped input. -/

theorem n2_of_shape {x : Tensor} {batch : List Nat} {a b : Nat}
    (hx : x.shape = batch ++ [a, b]) : x.n2 = a := by
  unfold Tensor.n2
  rw [hx]
  exact shape_sndlastD batch a b

theorem setNNIdx_faiss {u : NNUtil} {x : Tensor} {N : Nat}
    (hf : u.nnlib = .faiss) (hx : x.shape = u.batch_shape ++ [N, u.dim]) :
    u.setNNIdx x =
      (.ok (), { u with train_n := some N, index := trainedIndex u N x.data }) := by
  unfold NNUtil.setNNIdx
  rw [expandCheck_ok hx]
  simp only [n2_of_shape hx, hf]
  rfl

theorem findNNIdx_faiss {u : NNUtil} {x : Tensor} {n T : Nat}
    (hf : u.nnlib = .faiss) (htn : u.train_n = some n) (hkn : u.k ≤ n)
    (hx : x.shape = u.batch_shape ++ [T, u.dim]) :
    u.findNNIdx x none =
      (.ok { shape := u.batch_shape ++ [T, u.k],
             data := (queryRows u u.k T x.data).flatten.flatten }, u) := by
  unfold NNUtil.findNNIdx resolveQueryK
  rw [htn]
  simp only []
  rw [if_neg (by omega), expandCheck_ok hx]
  simp only [n2_of_shape hx, hf]

theorem buildSeq_faiss {u : NNUtil} {x : Tensor} {N : Nat}
    (hf : u.nnlib = .faiss) (hx : x.shape = u.batch_shape ++ [N, u.dim])
    (hkN : u.k < N) :
    u.buildSequentialNNIdx x =
      (.ok { shape := u.batch_shape ++ [N - u.k, u.k],
             data := (seqRows u N x.data).flatten.flatten }, u) := by
  unfold NNUtil.buildSequentialNNIdx
  rw [expandCheck_ok hx]
  simp only [n2_of_shape hx, hf]
  rw [if_neg (by omega)]

theorem buildSeq_rangeError {u : NNUtil} {x : Tensor} {N : Nat}
    (hx : x.shape = u.batch_shape ++ [N, u.dim]) (hNk : N ≤ u.k) :
    u.buildSequentialNNIdx x = (.error .rangeError, u) := by
  unfold NNUtil.buildSequentialNNIdx
  rw [expandCheck_ok hx]
  simp only [n2_of_shape hx]
  rw [if_pos (by omega)]

theorem new_faiss {k dim : Nat} {batch : List Nat} {u0 : NNUtil}
    (h : NNUtil.new k dim batch .faiss = .ok u0) :
    k ≠ 0 ∧ u0 = freshFaiss k dim batch := by
  unfold NNUtil.new at h
  split at h
  · simp at h
  · rename_i hk
    refine ⟨hk, ?_⟩
    injection h with h'
    rw [← h']
    unfold NNUtil.cpu freshFaiss
    rw [if_pos rfl]

theorem getD_replicate_self {α : Type} (a : α) (M b : Nat) :
    (List.replicate M a).getD b a = a := by
  rcases Nat.lt_or_ge b M with h | h
  · exact getD_replicate a a M b h
  · exact List.getD_eq_default _ _ (by simpa using h)

/-! The claims. -/

/-- Claim C10: `Query` (`find_nn_idx`) and `BuildSequentialNeighbors`
(`build_sequential_nn_idx`) never mutate the `NNUtil` state — the post-call
state equals the pre-call state, every field included — and an intervening
`build_sequential_nn_idx` (which works on a fresh local index) does not change
the result of a later `find_nn_idx`. -/
theorem claim10_frame :
    (∀ (u : NNUtil) (x : Tensor) (kq : Option Int), (u.findNNIdx x kq).2 = u) ∧
    (∀ (u : NNUtil) (x : Tensor), (u.buildSequentialNNIdx x).2 = u) ∧
    (∀ (u : NNUtil) (x y : Tensor) (kq : Option Int),
      ((u.buildSequentialNNIdx y).2).findNNIdx x kq = u.findNNIdx x kq) := by
  have h1 : ∀ (u : NNUtil) (x : Tensor) (kq : Option Int), (u.findNNIdx x kq).2 = u := by
    intro u x kq
    unfold NNUtil.findNNIdx
    repeat' split
    all_goals rfl
  have h2 : ∀ (u : NNUtil) (x : Tensor), (u.buildSequentialNNIdx x).2 = u := by
    intro u x
    unfold NNUtil.buildSequentialNNIdx
    repeat' split
    all_goals rfl
  exact ⟨h1, h2, fun u x y kq => by rw [h2 u y]⟩

/-- Claim C4: `find_nn_idx` fails with StateError (the line-86 assertion)
whenever `set_nn_idx` has never set `train_n`; with `train_n` set, a supplied
`k` outside `0 < k ≤ train_n` fails with RangeError (the line-90/91
assertions); an omitted `k` behaves exactly like supplying the configured
`k`. -/
theorem claim4_query_k (u : NNUtil) :
    (∀ (x : Tensor) (kq : Option Int), u.train_n = none →
      u.findNNIdx x kq = (.error .stateError, u)) ∧
    (∀ (x : Tensor) (n : Nat) (ki : Int), u.train_n = some n →
      ¬(0 < ki ∧ ki ≤ (n : Int)) →
      u.findNNIdx x (some ki) = (.error .rangeError, u)) ∧
    (1 ≤ u.k → ∀ x : Tensor,
      u.findNNIdx x none = u.findNNIdx x (some (u.k : Int))) := by
  refine ⟨?_, ?_, ?_⟩
  · intro x kq h
    unfold NNUtil.findNNIdx
    rw [h]
  · intro x n ki h hk
    unfold NNUtil.findNNIdx resolveQueryK
    rw [h]
    by_cases hki : ki ≤ 0
    · simp [hki]
    · have hlt : n < ki.toNat := by omega
      simp [hki, hlt]
  · intro hk x
    unfold NNUtil.findNNIdx resolveQueryK
    cases htn : u.train_n with
    | none => rfl
    | some n =>
      have h1 : ¬ ((u.k : Int) ≤ 0) := by omega
      simp [h1, Int.toNat_natCast]

theorem claim4_witness :
    c4state.findNNIdx { shape := [1, 1], data := [0] } none =
      (.error .stateError, c4state) ∧
    ({ c4state with train_n := some 3 } : NNUtil).findNNIdx
      { shape := [1, 1], data := [0] } (some 4) =
      (.error .rangeError, { c4state with train_n := some 3 }) ∧
    ({ c4state with train_n := some 3 } : NNUtil).findNNIdx
      { shape := [1, 1], data := [0] } none =
      ({ c4state with train_n := some 3 } : NNUtil).findNNIdx
        { shape := [1, 1], data := [0] } (some 2) := by
  refine ⟨?_, ?_, ?_⟩
  · exact (claim4_query_k c4state).1 _ none rfl
  · exact (claim4_query_k _).2.1 _ 3 4 rfl (by decide)
  · exact (claim4_query_k _).2.2 (by decide) _

/-- Claim C7: with a well-shaped input holding `N` points per slot,
`build_sequential_nn_idx` fails with RangeError (the line-146 assertion)
whenever `N ≤ k`; and with `N > k` on the faiss backend it returns a tensor of
shape `(*batch_shape, N-k, k)`. -/
theorem claim7_shape (u : NNUtil) (x : Tensor) (N : Nat)
    (hx : x.shape = u.batch_shape ++ [N, u.dim]) :
    (N ≤ u.k → u.buildSequentialNNIdx x = (.error .rangeError, u)) ∧
    (u.k < N → u.nnlib = .faiss →
      ∃ r : Tensor, u.buildSequentialNNIdx x = (.ok r, u) ∧
        r.shape = u.batch_shape ++ [N - u.k, u.k]) := by
  constructor
  · intro h
    exact buildSeq_rangeError hx h
  · intro h hf
    exact ⟨_, buildSeq_faiss hf hx h, rfl⟩

theorem claim7_witness :
    c7small.buildSequentialNNIdx { shape := [2, 1], data := [0, 1] } =
      (.error .rangeError, c7small) ∧
    (∃ r : Tensor, c7big.buildSequentialNNIdx { shape := [2, 1], data := [0, 1] } =
      (.ok r, c7big) ∧ r.shape = [1, 1]) :=
  ⟨(claim7_shape c7small { shape := [2, 1], data := [0, 1] } 2 rfl).1 (by decide),
   (claim7_shape c7big { shape := [2, 1], data := [0, 1] } 2 rfl).2 (by decide) rfl⟩

/-- Claim C9: with `dim=2`, `batch_shape=[]`, `k=1`, training points
`[[0,0],[10,10]]`, querying the single test point `[[1,1]]` returns index `0`,
the L2-nearest training point. -/
theorem claim9_concrete :
    NNUtil.new 1 2 [] .faiss = .ok c9fresh ∧
    c9fresh.setNNIdx { shape := [2, 2], data := [0, 0, 10, 10] } =
      (.ok (), c9trained) ∧
    c9trained.findNNIdx { shape := [1, 2], data := [1, 1] } none =
      (.ok { shape := [1, 1], data := [0] }, c9trained) := by decide

/-- Claim C5 evaluated on the code: on the scikit-learn (fallback) backend,
`set_nn_idx` raises `TypeError` (line 129 calls the *module* bound by
`import sklearn.neighbors as NearestNeighbors`) after having already set
`train_n`, and a subsequent `find_nn_idx` raises `AttributeError` (line 99
reads `self.neighbors`, which no statement ever assigns; line 101 would read
the likewise never-assigned `self.train_neighbors`).  So the fallback query
path never returns an index array at all. -/
theorem claim5_sklearn_broken :
    c5sk.setNNIdx { shape := [2, 2], data := [0, 0, 10, 10] } =
      (.error .typeError, c5skPost) ∧
    c5skPost.findNNIdx { shape := [1, 2], data := [1, 1] } none =
      (.error .attributeError, c5skPost) := by decide

/-- Claim C6 evaluated on the code: on the scikit-learn (fallback) backend,
`build_sequential_nn_idx` on a valid input (correct shape, `k < N`) raises an
`UnboundLocalError`/`NameError` — line 175 is `pass` and line 176 returns the
never-assigned local `nn_idx` — which is none of RangeError, ShapeError, or
UnsupportedOperationError. -/
theorem claim6_sklearn_broken :
    c6sk.buildSequentialNNIdx { shape := [2, 1], data := [0, 7] } =
      (.error .nameError, c6sk) ∧
    Err.nameError ∉ ([.rangeError, .shapeError, .unsupportedOperationError] : List Err) := by
  decide

/-- Claim C3 refuted: after `set_nn_idx`, switching device (`cpu()`) does
recreate the per-slot indices empty, but `train_n` is NOT cleared, so a
subsequent `find_nn_idx` does not fail with StateError — it succeeds and
returns the faiss padding id `-1`. -/
theorem claim3_counterexample :
    c3fresh.setNNIdx { shape := [2, 2], data := [0, 0, 10, 10] } =
      (.ok (), c3trained) ∧
    (c3trained.cpu).train_n = some 2 ∧
    (c3trained.cpu).findNNIdx { shape := [1, 2], data := [1, 1] } none =
      (.ok { shape := [1, 1], data := [-1] }, c3trained.cpu) ∧
    ((c3trained.cpu).findNNIdx { shape := [1, 2], data := [1, 1] } none).1 ≠
      .error .stateError := by decide

/-- Claim C3 as amended: for a faiss-backend state with `train_n` set,
`cpu()` (SetDevice) discards the previously indexed points — every per-slot
structure is recreated empty — but `train_n` survives, so a subsequent
well-shaped `find_nn_idx` with the configured `k ≤ train_n` does not raise
StateError: it succeeds and every returned entry is the padding id `-1`. -/
theorem claim3_amended (u : NNUtil) (x : Tensor) (n T : Nat)
    (hf : u.nnlib = .faiss) (htn : u.train_n = some n) (hk : u.k ≤ n)
    (hx : x.shape = u.batch_shape ++ [T, u.dim]) :
    (u.cpu).index = List.replicate u.batch_shape.prod (IndexFlatL2.empty u.dim) ∧
    (u.cpu).train_n = some n ∧
    ∃ r : Tensor, (u.cpu).findNNIdx x none = (.ok r, u.cpu) ∧
      r.shape = u.batch_shape ++ [T, u.k] ∧ ∀ v ∈ r.data, v = -1 := by
  have hcpu : u.cpu =
      { u with index := List.replicate u.batch_shape.prod (IndexFlatL2.empty u.dim) } := by
    unfold NNUtil.cpu
    rw [if_pos hf]
  have hf' : (u.cpu).nnlib = .faiss := by rw [hcpu]; exact hf
  have htn' : (u.cpu).train_n = some n := by rw [hcpu]; exact htn
  have hk' : (u.cpu).k ≤ n := by rw [hcpu]; exact hk
  have hx' : x.shape = (u.cpu).batch_shape ++ [T, (u.cpu).dim] := by rw [hcpu]; exact hx
  refine ⟨by rw [hcpu], htn', ?_⟩
  refine ⟨_, findNNIdx_faiss hf' htn' hk' hx', by rw [hcpu], ?_⟩
  intro v hv
  simp only [List.mem_flatten] at hv
  obtain ⟨row, ⟨rl, hrl, hrow⟩, hvrow⟩ := hv
  unfold queryRows at hrl
  rw [List.mem_map] at hrl
  obtain ⟨b, _, rfl⟩ := hrl
  rw [List.mem_map] at hrow
  obtain ⟨qr, _, rfl⟩ := hrow
  have hidx : (u.cpu).index.getD b (IndexFlatL2.empty (u.cpu).dim) =
      IndexFlatL2.empty u.dim := by
    rw [hcpu]
    exact getD_replicate_self (IndexFlatL2.empty u.dim) u.batch_shape.prod b
  rw [hidx] at hvrow
  exact searchRow_empty_mem hvrow

/-- Claim C8: the shape gate shared by all three entry points.  A rank-1 input
of length `n` is promoted to `(n, 1)` and accepted exactly when that promoted
shape matches (`batch_shape = []`, `dim = 1`); any promoted or higher-rank
input whose leading dims differ from `batch_shape` or whose last dim differs
from `dim` fails with ShapeError; and a ShapeError from the gate propagates
unchanged out of `set_nn_idx` (before `train_n` is touched — the returned
state is the pre-call state), `build_sequential_nn_idx`, and `find_nn_idx`. -/
theorem claim8_shape_gate (u : NNUtil) :
    (∀ (n : Nat) (data : List Int), u.batch_shape = [] → u.dim = 1 →
      u.expandCheck { shape := [n], data := data } =
        .ok { shape := [n, 1], data := data }) ∧
    (∀ (n : Nat) (data : List Int), u.batch_shape ≠ [] ∨ u.dim ≠ 1 →
      u.expandCheck { shape := [n], data := data } = .error .shapeError) ∧
    (∀ x : Tensor, 2 ≤ x.shape.length →
      (x.shape.take (x.shape.length - 2) ≠ u.batch_shape ∨
        x.shape.getD (x.shape.length - 1) 0 ≠ u.dim) →
      u.expandCheck x = .error .shapeError) ∧
    (∀ (x : Tensor) (e : Err), u.expandCheck x = .error e →
      e = .shapeError ∧ u.setNNIdx x = (.error .shapeError, u) ∧
        u.buildSequentialNNIdx x = (.error .shapeError, u)) ∧
    (∀ (x : Tensor) (e : Err) (n : Nat), u.train_n = some n → u.k ≤ n →
      u.expandCheck x = .error e → u.findNNIdx x none = (.error .shapeError, u)) := by
  have hp1 : ∀ (n : Nat) (data : List Int),
      promote1 { shape := [n], data := data } = { shape := [n, 1], data := data } :=
    fun _ _ => rfl
  refine ⟨?_, ?_, ?_, ?_, ?_⟩
  · intro n data hb hd
    unfold NNUtil.expandCheck
    rw [hp1, if_pos]
    exact ⟨by simp [hb], by simp [List.getD, hd]⟩
  · intro n data hor
    unfold NNUtil.expandCheck
    rw [hp1, if_neg]
    rintro ⟨h1, h2⟩
    rcases hor with h | h
    · exact h (by simpa using h1.symm)
    · exact h (by simpa [List.getD] using h2.symm)
  · intro x hlen hor
    have hp : promote1 x = x := by
      unfold promote1
      rw [if_neg (by omega)]
    unfold NNUtil.expandCheck
    rw [hp, if_neg]
    rintro ⟨h1, h2⟩
    rcases hor with h | h
    · exact h h1
    · exact h h2
  · intro x e h
    have he := expandCheck_error h
    subst he
    refine ⟨rfl, ?_, ?_⟩
    · unfold NNUtil.setNNIdx
      rw [h]
    · unfold NNUtil.buildSequentialNNIdx
      rw [h]
  · intro x e n htn hk h
    have he := expandCheck_error h
    subst he
    unfold NNUtil.findNNIdx resolveQueryK
    rw [htn]
    simp only []
    rw [if_neg (by omega), h]

theorem claim8_witness :
    c8flat.expandCheck { shape := [3], data := [5, 6, 7] } =
      .ok { shape := [3, 1], data := [5, 6, 7] } ∧
    c8planar.expandCheck { shape := [3], data := [5, 6, 7] } =
      .error .shapeError ∧
    c8flat.expandCheck { shape := [2, 2], data := [0, 0, 0, 0] } =
      .error .shapeError ∧
    c8flat.setNNIdx { shape := [2, 2], data := [0, 0, 0, 0] } =
      (.error .shapeError, c8flat) ∧
    c8flat.buildSequentialNNIdx { shape := [2, 2], data := [0, 0, 0, 0] } =
      (.error .shapeError, c8flat) ∧
    ({ c8flat with train_n := some 3 } : NNUtil).findNNIdx
        { shape := [2, 2], data := [0, 0, 0, 0] } none =
      (.error .shapeError, { c8flat with train_n := some 3 }) := by
  refine ⟨?_, ?_, ?_, ?_, ?_, ?_⟩
  · exact (claim8_shape_gate c8flat).1 3 [5, 6, 7] rfl rfl
  · exact (claim8_shape_gate c8planar).2.1 3 [5, 6, 7] (Or.inr (by decide))
  · exact (claim8_shape_gate c8flat).2.2.1 { shape := [2, 2], data := [0, 0, 0, 0] }
      (by decide) (Or.inr (by decide))
  · exact ((claim8_shape_gate c8flat).2.2.2.1 { shape := [2, 2], data := [0, 0, 0, 0] }
      .shapeError (by decide)).2.1
  · exact ((claim8_shape_gate c8flat).2.2.2.1 { shape := [2, 2], data := [0, 0, 0, 0] }
      .shapeError (by decide)).2.2
  · exact (claim8_shape_gate _).2.2.2.2 { shape := [2, 2], data := [0, 0, 0, 0] }
      .shapeError 3 rfl (by decide) (by decide)

/-- Claim C2: from a freshly constructed faiss-backend utility, `set_nn_idx`
on training points of shape `(*batch_shape, N, dim)` with `N ≥ k` followed by
`find_nn_idx` on test points of shape `(*batch_shape, T, dim)` succeeds and
returns an index tensor of shape `(*batch_shape, T, k)` in which every entry
lies in `[0, N)`. -/
theorem claim2_query_range (k dim N T : Nat) (batch : List Nat) (u0 : NNUtil)
    (train test : Tensor)
    (hu : NNUtil.new k dim batch .faiss = .ok u0)
    (htr : train.shape = batch ++ [N, dim]) (hkN : k ≤ N)
    (hts : test.shape = batch ++ [T, dim]) :
    ∃ (u1 : NNUtil) (r : Tensor),
      u0.setNNIdx train = (.ok (), u1) ∧
      u1.findNNIdx test none = (.ok r, u1) ∧
      r.shape = batch ++ [T, k] ∧
      ∀ v ∈ r.data, 0 ≤ v ∧ v < (N : Int) := by
  obtain ⟨hk0, rfl⟩ := new_faiss hu
  have hset : (freshFaiss k dim batch).setNNIdx train =
      (.ok (), trainedFaiss k dim batch N train.data) :=
    @setNNIdx_faiss (freshFaiss k dim batch) train N rfl htr
  have hfind := @findNNIdx_faiss (trainedFaiss k dim batch N train.data)
    test N T rfl rfl hkN hts
  refine ⟨_, _, hset, hfind, rfl, ?_⟩
  intro v hv
  simp only [trainedFaiss, List.mem_flatten] at hv
  obtain ⟨row, ⟨rl, hrl, hrow⟩, hv⟩ := hv
  unfold queryRows at hrl
  rw [List.mem_map] at hrl
  obtain ⟨b, hbmem, rfl⟩ := hrl
  rw [List.mem_range] at hbmem
  rw [List.mem_map] at hrow
  obtain ⟨qr, hqrmem, rfl⟩ := hrow
  dsimp only at hbmem hqrmem hv
  have hixb : ((trainedIndex (freshFaiss k dim batch) N train.data).getD b
      (IndexFlatL2.empty dim)).xb = slotPts dim N train.data b := by
    unfold trainedIndex
    dsimp only [freshFaiss]
    rw [getD_map_range _ _ _ b hbmem]
    simp [IndexFlatL2.reset, IndexFlatL2.add]
  have hkk : k ≤ ((trainedIndex (freshFaiss k dim batch) N train.data).getD b
      (IndexFlatL2.empty dim)).xb.length := by
    rw [hixb, slotPts_length]
    exact hkN
  obtain ⟨h0, h1⟩ := searchRow_mem_bounds hkk hv
  refine ⟨h0, ?_⟩
  rw [hixb, slotPts_length] at h1
  exact h1

theorem seqSearchAdd_mem_length (kk : Nat) :
    ∀ (qs : List (List Int)) (ix : IndexFlatL2) (l : List Int),
      l ∈ seqSearchAdd kk ix qs → l.length = kk := by
  intro qs
  induction qs with
  | nil => intro ix l hl; simp [seqSearchAdd] at hl
  | cons q rest ih =>
    intro ix l hl
    simp only [seqSearchAdd, List.mem_cons] at hl
    rcases hl with rfl | hl
    · exact searchRow_length _ _ _
    · exact ih _ l hl

/-- Claim C1: from a freshly constructed faiss-backend utility with `k < N`,
`build_sequential_nn_idx` succeeds, and for every batch slot `b` and every
point index `i` in `[k, N)`, output row `i-k` of slot `b` holds exactly `k`
distinct ids, all in `[0, i)` (causality), and they are the `k` nearest
neighbors of point `i` among points `0..i-1` only: every unselected earlier
point is at least as far (in squared L2, which orders like L2) from point `i`
as every selected one. -/
theorem claim1_sequential (k dim N : Nat) (batch : List Nat) (u0 : NNUtil)
    (x : Tensor)
    (hu : NNUtil.new k dim batch .faiss = .ok u0)
    (hx : x.shape = batch ++ [N, dim]) (hkN : k < N) :
    ∃ r : Tensor,
      u0.buildSequentialNNIdx x = (.ok r, u0) ∧
      r.shape = batch ++ [N - k, k] ∧
      ∀ b : Nat, b < batch.prod → ∀ i : Nat, k ≤ i → i < N →
        ∀ row : List Int, row = tRow k r (b * (N - k) + (i - k)) →
          row.length = k ∧ row.Nodup ∧
          (∀ v ∈ row, 0 ≤ v ∧ v < (i : Int)) ∧
          (∀ v ∈ row, ∀ j : Nat, j < i → (j : Int) ∉ row →
            sqdist ((slotPts dim N x.data b).getD v.toNat [])
                ((slotPts dim N x.data b).getD i []) ≤
              sqdist ((slotPts dim N x.data b).getD j [])
                ((slotPts dim N x.data b).getD i [])) := by
  obtain ⟨hk0, rfl⟩ := new_faiss hu
  have hb := @buildSeq_faiss (freshFaiss k dim batch) x N rfl hx hkN
  refine ⟨_, hb, rfl, ?_⟩
  intro b hbM i hik hiN row hrow
  have hptslen : (slotPts dim N x.data b).length = N := slotPts_length dim N x.data b
  have hrowslen : (seqRows (freshFaiss k dim batch) N x.data).length = batch.prod := by
    unfold seqRows
    dsimp only [freshFaiss]
    simp
  have hB : ∀ rl ∈ seqRows (freshFaiss k dim batch) N x.data, rl.length = N - k := by
    intro rl hrl
    unfold seqRows at hrl
    dsimp only [freshFaiss] at hrl
    rw [List.mem_map] at hrl
    obtain ⟨b', hb', rfl⟩ := hrl
    rw [seqSearchAdd_length, List.length_drop, slotPts_length]
  have hC : ∀ l ∈ (seqRows (freshFaiss k dim batch) N x.data).flatten, l.length = k := by
    intro l hl
    rw [List.mem_flatten] at hl
    obtain ⟨rl, hrl, hl⟩ := hl
    unfold seqRows at hrl
    dsimp only [freshFaiss] at hrl
    rw [List.mem_map] at hrl
    obtain ⟨b', hb', rfl⟩ := hrl
    exact seqSearchAdd_mem_length k _ _ l hl
  have hD : (seqRows (freshFaiss k dim batch) N x.data).flatten.length =
      batch.prod * (N - k) := by
    rw [length_flatten_uniform (N - k) _ hB, hrowslen]
  have hidx : b * (N - k) + (i - k) < batch.prod * (N - k) := by
    have h1 : i - k < N - k := by omega
    calc b * (N - k) + (i - k) < b * (N - k) + (N - k) := by omega
      _ = (b + 1) * (N - k) := by ring
      _ ≤ batch.prod * (N - k) := Nat.mul_le_mul_right _ (by omega)
  have hrow2 : row =
      ((seqRows (freshFaiss k dim batch) N x.data).flatten).getD
        (b * (N - k) + (i - k)) [] := by
    rw [hrow]
    unfold tRow
    dsimp only
    exact slice_flatten k _ _ hC (by rw [hD]; exact hidx)
  have hF : ((seqRows (freshFaiss k dim batch) N x.data).flatten).getD
      (b * (N - k) + (i - k)) [] =
      ((seqRows (freshFaiss k dim batch) N x.data).getD b []).getD (i - k) [] :=
    getD_flatten_uniform (N - k) [] _ b (i - k) hB
      (by rw [hrowslen]; exact hbM) (by omega)
  have hG : (seqRows (freshFaiss k dim batch) N x.data).getD b [] =
      seqSearchAdd k
        ((IndexFlatL2.empty dim).add ((slotPts dim N x.data b).take k))
        ((slotPts dim N x.data b).drop k) := by
    unfold seqRows
    dsimp only [freshFaiss]
    exact getD_map_range _ _ _ b hbM
  have hH : (IndexFlatL2.empty dim).add ((slotPts dim N x.data b).take k) =
      ⟨dim, (slotPts dim N x.data b).take k⟩ := by
    simp [IndexFlatL2.empty, IndexFlatL2.add]
  have hI := seqSearchAdd_getD k dim (slotPts dim N x.data b) (i - k) k
    (by rw [hptslen]; omega)
  have harith : k + (i - k) = i := by omega
  rw [harith] at hI
  have hrow3 : row = IndexFlatL2.searchRow ⟨dim, (slotPts dim N x.data b).take i⟩
      ((slotPts dim N x.data b).getD i []) k := by
    rw [hrow2, hF, hG, hH, hI]
  subst hrow3
  have hxblen : ((⟨dim, (slotPts dim N x.data b).take i⟩ : IndexFlatL2)).xb.length = i := by
    dsimp only
    rw [List.length_take, hptslen]
    omega
  have hkk : k ≤ ((⟨dim, (slotPts dim N x.data b).take i⟩ : IndexFlatL2)).xb.length := by
    rw [hxblen]
    omega
  refine ⟨searchRow_length _ _ _, searchRow_nodup hkk, ?_, ?_⟩
  · intro v hv
    have hbd := searchRow_mem_bounds hkk hv
    rw [hxblen] at hbd
    exact hbd
  · intro v hv j hj hnj
    have hbd := searchRow_mem_bounds hkk hv
    rw [hxblen] at hbd
    have hvnat : v.toNat < i := by omega
    have hjlt : j < ((⟨dim, (slotPts dim N x.data b).take i⟩ : IndexFlatL2)).xb.length := by
      rw [hxblen]
      exact hj
    have hnear := searchRow_nearest hkk hv hjlt hnj
    dsimp only at hnear
    rw [getD_take _ _ i v.toNat hvnat, getD_take _ _ i j hj] at hnear
    exact hnear

theorem claim1_witness :
    ∃ r : Tensor,
      (freshFaiss 1 1 []).buildSequentialNNIdx { shape := [2, 1], data := [0, 5] } =
        (.ok r, freshFaiss 1 1 []) ∧
      r.shape = [1, 1] ∧
      ∀ b : Nat, b < 1 → ∀ i : Nat, 1 ≤ i → i < 2 →
        ∀ row : List Int, row = tRow 1 r (b * 1 + (i - 1)) →
          row.length = 1 ∧ row.Nodup ∧
          (∀ v ∈ row, 0 ≤ v ∧ v < (i : Int)) ∧
          (∀ v ∈ row, ∀ j : Nat, j < i → (j : Int) ∉ row →
            sqdist ((slotPts 1 2 [0, 5] b).getD v.toNat [])
                ((slotPts 1 2 [0, 5] b).getD i []) ≤
              sqdist ((slotPts 1 2 [0, 5] b).getD j [])
                ((slotPts 1 2 [0, 5] b).getD i [])) :=
  claim1_sequential 1 1 2 [] (freshFaiss 1 1 []) { shape := [2, 1], data := [0, 5] }
    (by decide) rfl (by decide)

theorem claim2_witness :
    ∃ (u1 : NNUtil) (r : Tensor),
      c2fresh.setNNIdx { shape := [2, 2], data := [0, 0, 10, 10] } =
        (.ok (), u1) ∧
      u1.findNNIdx { shape := [1, 2], data := [1, 1] } none = (.ok r, u1) ∧
      r.shape = [1, 1] ∧
      ∀ v ∈ r.data, 0 ≤ v ∧ v < (2 : Int) :=
  claim2_query_range 1 2 2 1 [] c2fresh
    { shape := [2, 2], data := [0, 0, 10, 10] }
    { shape := [1, 2], data := [1, 1] } (by decide) rfl (by decide) rfl

theorem claim3_amended_witness :
    (c3trained.cpu).index = [IndexFlatL2.empty 2] ∧
    (c3trained.cpu).train_n = some 2 ∧
    ∃ r : Tensor,
      (c3trained.cpu).findNNIdx { shape := [1, 2], data := [1, 1] } none =
        (.ok r, c3trained.cpu) ∧
      r.shape = [1, 1] ∧ ∀ v ∈ r.data, v = -1 :=
  claim3_amended c3trained { shape := [1, 2], data := [1, 1] } 2 1 rfl rfl
    (by decide) rfl
